import Mathlib

/-!
Verification of the terraform-rum-analysis extraction pipeline.

Shallow embedding of the three scripts

* terraform_resource_extractor.py  (namespace Extractor),
* temporary_intended_resources.py  (namespace TempResources),
* extract_resource_type_stats.py   (namespace TypeStats).

A parsed state document is a record tree; pandas DataFrames are lists of
rows; a Python exception escaping the analysed code (KeyError on a missing
required dictionary key, AttributeError when calling lower() on a
non-string) is Except.error.  Attribute values are modelled as JSON
scalars: the scripts never look inside an attribute value except to compare
whole values for equality and to read the string-valued "name" attribute,
so nested arrays/objects would only enlarge the value type without
affecting any analysed behaviour.
-/

/-- A JSON scalar value stored in an instance's attribute map. -/
inductive JValue where
  | str : String → JValue
  | num : Int → JValue
  | jbool : Bool → JValue
  | jnull : JValue
deriving DecidableEq

/-- One materialized instance of a resource.  The scripts read
the attribute map with instance.get("attributes", ...), defaulting to
empty, so the field is a plain association list (first binding wins,
as in a parsed JSON object with unique keys). -/
structure TInstance where
  attributes : List (String × JValue)
deriving DecidableEq

/-- One resource entry of the state document.  The five scalar fields are
optional because the scripts read some of them with .get (tolerating
absence) and some with mandatory indexing (raising KeyError when absent).
The instances list is read with resource.get("instances", ...) everywhere,
so an absent list is identified with the empty one. -/
structure TResource where
  mode : Option String
  type : Option String
  name : Option String
  module : Option String
  provider : Option String
  instances : List TInstance
deriving DecidableEq

/-- A parsed state document: the scripts only consume
state_data.get("resources", ...). -/
structure TState where
  resources : Option (List TResource)
deriving DecidableEq

/-- Python str.startswith (exact character prefix). -/
def strStartsWith (s pre : String) : Bool :=
  pre.data.isPrefixOf s.data

/-- Python str.lower; ASCII folding, which covers every string the
analysed scripts compare (keywords and the "Unknown" sentinel). -/
def strLower (s : String) : String :=
  ⟨s.data.map Char.toLower⟩

/-- Substring containment on character lists, Python's needle in hay. -/
def charsContain : List Char → List Char → Bool
  | hay, needle =>
    needle.isPrefixOf hay ||
      match hay with
      | [] => false
      | _ :: t => charsContain t needle

/-- Python's needle in hay on strings. -/
def strContains (hay needle : String) : Bool :=
  charsContain hay.data needle.data

/-- pandas drop_duplicates with keep="first", generalised over the compared
key: an occurrence is dropped exactly when its key was already seen. -/
def dedupAux {α κ : Type} [DecidableEq κ] (key : α → κ) (seen : List κ) :
    List α → List α
  | [] => []
  | x :: xs =>
    if key x ∈ seen then dedupAux key seen xs
    else x :: dedupAux key (key x :: seen) xs

/-- drop_duplicates(keep="first") over a chosen key (id for full-row
dedup, a projection for subset dedup). -/
def dropDuplicatesBy {α κ : Type} [DecidableEq κ] (key : α → κ)
    (xs : List α) : List α :=
  dedupAux key [] xs

namespace Extractor

/-- One row of the DataFrame built in extract_resources
(terraform_resource_extractor.py lines 84 to 90). -/
structure Row where
  module : String
  resource_type : String
  resource_name : String
  provider : String
  instance_count : Nat
deriving DecidableEq

/-- Line 71: resource.get("mode") == "managed" and resource.get("type")
not in ["terraform_data", "null_resource"]. -/
def eligible (r : TResource) : Bool :=
  decide (r.mode = some "managed") &&
    !(decide (r.type = some "terraform_data") ||
      decide (r.type = some "null_resource"))

/-- Line 72: type.startswith("tfe_") or type.startswith("vault_"). -/
def is_hashi_resource (ty : String) : Bool :=
  strStartsWith ty "tfe_" || strStartsWith ty "vault_"

/-- The hashi classification read off the optional type field (false when
the field is absent; the script would instead raise before using it). -/
def is_hashi_type : Option String → Bool
  | some ty => is_hashi_resource ty
  | none => false

/-- The row literal appended for each instance (lines 84 to 90); type and
name come from the mandatory accesses resource["type"], resource["name"]. -/
def rowOf (r : TResource) (ty nm : String) : Row :=
  { module := r.module.getD "root"
  , resource_type := ty
  , resource_name := nm
  , provider := r.provider.getD "unknown"
  , instance_count := 1 }

/-- The inner instance loop (lines 83 to 90): one row per instance; the
mandatory resource["name"] access raises when the field is absent. -/
def instanceRows (r : TResource) (ty : String) :
    List TInstance → Except Unit (List Row)
  | [] => Except.ok []
  | _ :: insts =>
    match r.name with
    | none => Except.error ()
    | some nm =>
      match instanceRows r ty insts with
      | Except.error er => Except.error er
      | Except.ok rest => Except.ok (rowOf r ty nm :: rest)

/-- The body of the resource loop (lines 70 to 90) for one resource:
the produced rows together with this resource's contribution to
hashi_instances.  The mandatory resource["type"] access happens before the
flag filters; the exclude filter is tested before the only filter and
before hashi counting. -/
def processResource (exclude_tfe_vault only_tfe_vault : Bool)
    (r : TResource) : Except Unit (List Row × Nat) :=
  if eligible r then
    match r.type with
    | none => Except.error ()
    | some ty =>
      if exclude_tfe_vault && is_hashi_resource ty then Except.ok ([], 0)
      else if only_tfe_vault && !(is_hashi_resource ty) then Except.ok ([], 0)
      else
        match instanceRows r ty r.instances with
        | Except.error er => Except.error er
        | Except.ok rows =>
          Except.ok (rows, if is_hashi_resource ty then r.instances.length else 0)
  else Except.ok ([], 0)

/-- The resource loop, accumulating appended rows and hashi_instances. -/
def extractList (exclude_tfe_vault only_tfe_vault : Bool) :
    List TResource → Except Unit (List Row × Nat)
  | [] => Except.ok ([], 0)
  | r :: rs =>
    match processResource exclude_tfe_vault only_tfe_vault r with
    | Except.error er => Except.error er
    | Except.ok (rows, h) =>
      match extractList exclude_tfe_vault only_tfe_vault rs with
      | Except.error er => Except.error er
      | Except.ok (rows2, h2) => Except.ok (rows ++ rows2, h + h2)

/-- extract_resources (lines 63 to 92): the DataFrame rows and the final
hashi_instances counter. -/
def extract_resources (state_data : TState)
    (exclude_tfe_vault only_tfe_vault : Bool) :
    Except Unit (List Row × Nat) :=
  extractList exclude_tfe_vault only_tfe_vault (state_data.resources.getD [])

/-- pandas Series.nunique over a list of values. -/
def nunique (xs : List String) : Nat :=
  (dropDuplicatesBy id xs).length

/-- pandas Series.value_counts: occurrence count per distinct value,
sorted by descending count, ties kept in first-appearance order. -/
def value_counts (xs : List String) : List (String × Nat) :=
  ((dropDuplicatesBy id xs).map
      (fun v => (v, (xs.filter (fun x => decide (x = v))).length))).mergeSort
    (fun a b => decide (b.2 ≤ a.2))

/-- The figures printed by aggregate_resources (lines 94 to 116), computed
from the DataFrame it receives. -/
structure AggregateInfo where
  total_instances : Nat
  total_resources : Nat
  unique_types : Nat
  type_counts : List (String × Nat)
  name_counts : List (String × Nat)
deriving DecidableEq

/-- aggregate_resources (lines 94 to 116): every figure is computed from
the resource_df argument (the hashi_instances argument is only echoed). -/
def aggregate_resources (resource_df : List Row) : AggregateInfo :=
  { total_instances := resource_df.length
  , total_resources := nunique (resource_df.map Row.resource_name)
  , unique_types := nunique (resource_df.map Row.resource_type)
  , type_counts := value_counts (resource_df.map Row.resource_type)
  , name_counts := value_counts (resource_df.map Row.resource_name) }

/-- The groupby key of group_resources (line 122). -/
def groupKey (row : Row) : String × String × String × String :=
  (row.module, row.resource_type, row.resource_name, row.provider)

/-- group_resources (lines 118 to 124): one summary entry per distinct key
in first-appearance order, with the summed Instance Count column. -/
def group_resources (resource_df : List Row) :
    List ((String × String × String × String) × Nat) :=
  (dropDuplicatesBy id (resource_df.map groupKey)).map
    (fun k =>
      (k, ((resource_df.filter (fun row => decide (groupKey row = k))).map
            Row.instance_count).sum))

/-- bash_count of compare_with_jq (lines 134 to 135): the total number of
instances over managed, non-housekeeping resources, computed without any
hashi filtering. -/
def bash_count (state_data : TState) : Nat :=
  (((state_data.resources.getD []).filter eligible).map
    (fun r => r.instances.length)).sum

/-- The number of instances of eligible hashi-classified resources: the
value extract_resources adds up when nothing makes it skip them. -/
def hashi_instance_total (state_data : TState) : Nat :=
  (((state_data.resources.getD []).filter
      (fun r => eligible r && is_hashi_type r.type)).map
    (fun r => r.instances.length)).sum

end Extractor

namespace TempResources

/-- The keyword list of temporary_intended_resources.py line 42. -/
def keywords : List String :=
  ["demo", "test", "temp", "tmp", "example"]

/-- One entry appended to filtered_resources (lines 53 to 60); the
attribute map is carried only when display_attributes is set. -/
structure TempRow where
  resource_type : String
  resource_name : String
  attributes : Option (List (String × JValue))
deriving DecidableEq

/-- The dedup key of the drop_duplicates call on line 70:
subset=["Resource Type", "Resource Name"]. -/
def dedup_subset_key (row : TempRow) : String × String :=
  (row.resource_type, row.resource_name)

/-- The body of the instance loop (lines 46 to 60): read the "name"
attribute (defaulting to "Unknown"), keep the instance when its lowered
name contains a keyword.  Calling lower() on a non-string attribute value
raises (caught by the script's catch-all handler). -/
def processInstance (display_attributes : Bool) (rtype : Option String)
    (inst : TInstance) : Except Unit (List TempRow) :=
  match (match inst.attributes.lookup "name" with
         | some v => v
         | none => JValue.str "Unknown") with
  | JValue.str nm =>
    if keywords.any (fun k => strContains (strLower nm) k) then
      Except.ok
        [{ resource_type := rtype.getD "Unknown"
         , resource_name := nm
         , attributes := if display_attributes then some inst.attributes else none }]
    else Except.ok []
  | _ => Except.error ()

/-- The instance loop of one resource (lines 46 to 60). -/
def instanceLoop (display_attributes : Bool) (rtype : Option String) :
    List TInstance → Except Unit (List TempRow)
  | [] => Except.ok []
  | inst :: insts =>
    match processInstance display_attributes rtype inst with
    | Except.error er => Except.error er
    | Except.ok rows =>
      match instanceLoop display_attributes rtype insts with
      | Except.error er => Except.error er
      | Except.ok rest => Except.ok (rows ++ rest)

/-- The resource loop (lines 45 to 60); note the absence of any filter on
the resource's mode. -/
def resourceLoop (display_attributes : Bool) :
    List TResource → Except Unit (List TempRow)
  | [] => Except.ok []
  | r :: rs =>
    match instanceLoop display_attributes r.type r.instances with
    | Except.error er => Except.error er
    | Except.ok rows =>
      match resourceLoop display_attributes rs with
      | Except.error er => Except.error er
      | Except.ok rest => Except.ok (rows ++ rest)

/-- extract_resources of temporary_intended_resources.py (lines 26 to 95),
from the parsed document on: none when the filtered DataFrame is empty
(lines 65 to 67), otherwise the subset-deduplicated unique_resource_df
(line 70) that the function returns. -/
def extract_resources (terraform_state : TState)
    (display_attributes : Bool) : Except Unit (Option (List TempRow)) :=
  match resourceLoop display_attributes (terraform_state.resources.getD []) with
  | Except.error er => Except.error er
  | Except.ok filtered =>
    if filtered.isEmpty then Except.ok none
    else Except.ok (some (dropDuplicatesBy dedup_subset_key filtered))

/-- The document with every resource's logical name field replaced; used
to state that the script never reads that field. -/
def renameResources (f : TResource → Option String) (state : TState) : TState :=
  ⟨some ((state.resources.getD []).map (fun r => { r with name := f r }))⟩

end TempResources

namespace TypeStats

/-- The per-resource contribution in extract_resource_instances
(extract_resource_type_stats.py lines 24 to 29): the attribute maps of all
instances of resources whose optional type field equals the requested
type; note the absence of any filter on the resource's mode. -/
def matchingAttributes (resource_type : String) (rs : List TResource) :
    List (List (String × JValue)) :=
  rs.flatMap (fun r =>
    if r.type = some resource_type then r.instances.map TInstance.attributes
    else [])

/-- extract_resource_instances (lines 6 to 53), from the parsed document
on: none when no instance matched (lines 34 to 36), otherwise the
full-row-deduplicated unique instance DataFrame (line 39) it returns. -/
def extract_resource_instances (terraform_state : TState)
    (resource_type : String) : Option (List (List (String × JValue))) :=
  let resource_instances :=
    matchingAttributes resource_type (terraform_state.resources.getD [])
  if resource_instances.isEmpty then none
  else some (dropDuplicatesBy id resource_instances)

end TypeStats

section DedupLemmas

variable {α κ : Type} [DecidableEq κ]

/-- Keys of retained entries were not previously seen. -/
theorem dedupAux_key_not_mem (key : α → κ) :
    ∀ (xs : List α) (seen : List κ) (a : α),
      a ∈ dedupAux key seen xs → key a ∉ seen := by
  intro xs
  induction xs with
  | nil => intro seen a ha; simp [dedupAux] at ha
  | cons x xs ih =>
    intro seen a ha
    by_cases hx : key x ∈ seen
    · simp only [dedupAux, if_pos hx] at ha
      exact ih seen a ha
    · simp only [dedupAux, if_neg hx, List.mem_cons] at ha
      rcases ha with rfl | ha
      · exact hx
      · intro hmem
        exact ih (key x :: seen) a ha (List.mem_cons_of_mem _ hmem)
  
/-- Deduplication only drops entries: the result is a sublist, so the
original relative order of the survivors is preserved. -/
theorem dedupAux_sublist (key : α → κ) :
    ∀ (xs : List α) (seen : List κ), (dedupAux key seen xs).Sublist xs := by
  intro xs
  induction xs with
  | nil => intro seen; simp [dedupAux]
  | cons x xs ih =>
    intro seen
    by_cases hx : key x ∈ seen
    · simp only [dedupAux, if_pos hx]
      exact (ih seen).cons x
    · simp only [dedupAux, if_neg hx]
      exact (ih (key x :: seen)).cons₂ x

/-- Retained entries have pairwise distinct keys. -/
theorem nodup_map_key_dedupAux (key : α → κ) :
    ∀ (xs : List α) (seen : List κ), ((dedupAux key seen xs).map key).Nodup := by
  intro xs
  induction xs with
  | nil => intro seen; simp [dedupAux]
  | cons x xs ih =>
    intro seen
    by_cases hx : key x ∈ seen
    · simp only [dedupAux, if_pos hx]
      exact ih seen
    · simp only [dedupAux, if_neg hx, List.map_cons, List.nodup_cons]
      refine ⟨?_, ih (key x :: seen)⟩
      intro hmem
      rcases List.mem_map.mp hmem with ⟨a, ha, hkey⟩
      exact dedupAux_key_not_mem key xs (key x :: seen) a ha
        (hkey ▸ List.mem_cons_self _ _)

/-- Every retained entry is the first entry of the input that carries its
key: deduplication keeps first occurrences. -/
theorem dedupAux_head_filter (key : α → κ) :
    ∀ (xs : List α) (seen : List κ) (a : α), a ∈ dedupAux key seen xs →
      (xs.filter (fun b => decide (key b = key a))).head? = some a := by
  intro xs
  induction xs with
  | nil => intro seen a ha; simp [dedupAux] at ha
  | cons x xs ih =>
    intro seen a ha
    by_cases hx : key x ∈ seen
    · simp only [dedupAux, if_pos hx] at ha
      have hne : key x ≠ key a := by
        intro he
        exact dedupAux_key_not_mem key xs seen a ha (he ▸ hx)
      simp only [List.filter_cons, decide_eq_true_eq, if_neg hne]
      exact ih seen a ha
    · simp only [dedupAux, if_neg hx, List.mem_cons] at ha
      rcases ha with rfl | ha
      · simp [List.filter_cons]
      · have hne : key x ≠ key a := by
          intro he
          exact dedupAux_key_not_mem key xs (key x :: seen) a ha
            (he ▸ List.mem_cons_self _ _)
        simp only [List.filter_cons, decide_eq_true_eq, if_neg hne]
        exact ih (key x :: seen) a ha

/-- Every input entry whose key is not yet seen has a representative with
the same key in the output. -/
theorem dedupAux_exists_rep (key : α → κ) :
    ∀ (xs : List α) (seen : List κ) (x : α), x ∈ xs → key x ∉ seen →
      ∃ y, y ∈ dedupAux key seen xs ∧ key y = key x := by
  intro xs
  induction xs with
  | nil => intro seen x hx; simp at hx
  | cons a xs ih =>
    intro seen x hx hseen
    by_cases ha : key a ∈ seen
    · simp only [dedupAux, if_pos ha]
      rcases List.mem_cons.mp hx with rfl | hx
      · exact absurd ha hseen
      · exact ih seen x hx hseen
    · simp only [dedupAux, if_neg ha]
      rcases List.mem_cons.mp hx with rfl | hx
      · exact ⟨x, List.mem_cons_self _ _, rfl⟩
      · by_cases hk : key x = key a
        · exact ⟨a, List.mem_cons_self _ _, hk.symm⟩
        · have : key x ∉ key a :: seen := by
            intro h
            rcases List.mem_cons.mp h with h | h
            · exact hk h
            · exact hseen h
          rcases ih (key a :: seen) x hx this with ⟨y, hy, hky⟩
          exact ⟨y, List.mem_cons_of_mem _ hy, hky⟩

/-- A list with fresh, pairwise distinct keys is left unchanged. -/
theorem dedupAux_eq_self (key : α → κ) :
    ∀ (ys : List α) (seen : List κ), (∀ a ∈ ys, key a ∉ seen) →
      ((ys.map key).Nodup) → dedupAux key seen ys = ys := by
  intro ys
  induction ys with
  | nil => intro seen _ _; rfl
  | cons y ys ih =>
    intro seen hfresh hnodup
    have hy : key y ∉ seen := hfresh y (List.mem_cons_self _ _)
    simp only [dedupAux, if_neg hy]
    simp only [List.map_cons, List.nodup_cons] at hnodup
    refine congrArg (y :: ·) (ih (key y :: seen) ?_ hnodup.2)
    intro a ha hmem
    rcases List.mem_cons.mp hmem with h | h
    · exact hnodup.1 (h ▸ List.mem_map_of_mem key ha)
    · exact hfresh a (List.mem_cons_of_mem _ ha) h

/-- Deduplicating an already-deduplicated list (same key) changes nothing. -/
theorem dropDuplicatesBy_idem (key : α → κ) (xs : List α) :
    dropDuplicatesBy key (dropDuplicatesBy key xs) = dropDuplicatesBy key xs := by
  unfold dropDuplicatesBy
  exact dedupAux_eq_self key (dedupAux key [] xs) []
    (fun a _ h => List.not_mem_nil _ h)
    (nodup_map_key_dedupAux key xs [])

/-- Membership through identity-keyed deduplication. -/
theorem mem_dedupAux_id {β : Type} [DecidableEq β] :
    ∀ (xs : List β) (seen : List β) (b : β),
      b ∈ dedupAux (id : β → β) seen xs ↔ b ∈ xs ∧ b ∉ seen := by
  intro xs
  induction xs with
  | nil => intro seen b; simp [dedupAux]
  | cons x xs ih =>
    intro seen b
    by_cases hx : (id x) ∈ seen
    · simp only [dedupAux, if_pos hx, ih, List.mem_cons]
      constructor
      · rintro ⟨hb, hs⟩; exact ⟨Or.inr hb, hs⟩
      · rintro ⟨hb | hb, hs⟩
        · exact absurd (hb ▸ hx) hs
        · exact ⟨hb, hs⟩
    · simp only [dedupAux, if_neg hx, List.mem_cons, ih]
      constructor
      · rintro (rfl | ⟨hb, hs⟩)
        · exact ⟨Or.inl rfl, hx⟩
        · constructor
          · exact Or.inr hb
          · intro h; exact hs (Or.inr h)
      · rintro ⟨hb | hb, hs⟩
        · exact Or.inl hb
        · by_cases hbx : b = x
          · exact Or.inl hbx
          · refine Or.inr ⟨hb, ?_⟩
            rintro (h | h)
            · exact hbx h
            · exact hs h

end DedupLemmas

section SumLemmas

variable {α κ : Type} [DecidableEq κ]

/-- Splitting a sum along a Boolean filter. -/
theorem sum_filter_split (p : α → Bool) (c : α → Nat) (xs : List α) :
    ((xs.filter p).map c).sum + ((xs.filter (fun a => !(p a))).map c).sum
      = (xs.map c).sum := by
  induction xs with
  | nil => rfl
  | cons x xs ih =>
    cases hp : p x <;> simp [List.filter_cons, hp] <;> omega

/-- Summing per-key filtered sums over a duplicate-free covering key list
recovers the total. -/
theorem sum_over_keys (key : α → κ) (c : α → Nat) :
    ∀ (keys : List κ) (xs : List α), keys.Nodup → (∀ a ∈ xs, key a ∈ keys) →
      (keys.map
          (fun k => ((xs.filter (fun a => decide (key a = k))).map c).sum)).sum
        = (xs.map c).sum := by
  intro keys
  induction keys with
  | nil =>
    intro xs _ hcov
    have : xs = [] := by
      cases xs with
      | nil => rfl
      | cons x xs => exact absurd (hcov x (List.mem_cons_self _ _)) (List.not_mem_nil _)
    simp [this]
  | cons k keys ih =>
    intro xs hnodup hcov
    simp only [List.nodup_cons] at hnodup
    have hrest :
        (keys.map
            (fun k2 => ((xs.filter (fun a => decide (key a = k2))).map c).sum)).sum
          = (((xs.filter (fun a => !(decide (key a = k)))).map c).sum) := by
      have hxs' : ∀ a ∈ xs.filter (fun a => !(decide (key a = k))), key a ∈ keys := by
        intro a ha
        have hmem := List.mem_of_mem_filter ha
        have hprop := List.of_mem_filter ha
        simp only [Bool.not_eq_true', decide_eq_false_iff_not] at hprop
        rcases List.mem_cons.mp (hcov a hmem) with h | h
        · exact absurd h hprop
        · exact h
      rw [← ih (xs.filter (fun a => !(decide (key a = k)))) hnodup.2 hxs']
      refine congrArg List.sum (List.map_congr_left ?_)
      intro k2 hk2
      have hne : k2 ≠ k := by
        intro he; exact hnodup.1 (he ▸ hk2)
      refine congrArg List.sum (congrArg (List.map c) ?_)
      rw [List.filter_filter]
      refine (List.filter_congr ?_).symm
      intro a _
      cases hak : decide (key a = k2) with
      | false => simp
      | true =>
        have : key a = k2 := of_decide_eq_true hak
        simp [this, hne]
    simp only [List.map_cons, List.sum_cons, hrest]
    exact sum_filter_split (fun a => decide (key a = k)) c xs

/-- Grouping by the distinct keys of a list and summing a measure per
group conserves the total measure. -/
theorem sum_groups (key : α → κ) (c : α → Nat) (xs : List α) :
    ((dropDuplicatesBy id (xs.map key)).map
        (fun k => ((xs.filter (fun a => decide (key a = k))).map c).sum)).sum
      = (xs.map c).sum := by
  apply sum_over_keys key c (dropDuplicatesBy id (xs.map key)) xs
  · have h := nodup_map_key_dedupAux (id : κ → κ) (xs.map key) []
    rwa [List.map_id] at h
  · intro a ha
    exact (mem_dedupAux_id (xs.map key) [] (key a)).mpr
      ⟨List.mem_map_of_mem key ha, List.not_mem_nil _⟩

/-- A sum of all-one measures is a length. -/
theorem sum_map_one {β : Type} (c : β → Nat) :
    ∀ (xs : List β), (∀ a ∈ xs, c a = 1) → (xs.map c).sum = xs.length := by
  intro xs
  induction xs with
  | nil => intro _; rfl
  | cons x xs ih =>
    intro hone
    simp only [List.map_cons, List.sum_cons, List.length_cons,
      hone x (List.mem_cons_self _ _),
      ih (fun a ha => hone a (List.mem_cons_of_mem _ ha))]
    omega

end SumLemmas

namespace Extractor

/-- A successful inner loop yields one identical row per instance. -/
theorem instanceRows_ok (r : TResource) (ty : String) :
    ∀ (insts : List TInstance) (rows : List Row),
      instanceRows r ty insts = Except.ok rows →
      rows = insts.map (fun _ => rowOf r ty (r.name.getD "")) := by
  intro insts
  induction insts with
  | nil =>
    intro rows h
    simp only [instanceRows] at h
    cases h
    rfl
  | cons i insts ih =>
    intro rows h
    simp only [instanceRows] at h
    cases hn : r.name with
    | none => rw [hn] at h; cases h
    | some nm =>
      rw [hn] at h
      cases hrec : instanceRows r ty insts with
      | error er => rw [hrec] at h; cases h
      | ok rest =>
        rw [hrec] at h
        cases h
        simp [List.map_cons, ih rest hrec, hn]

/-- A failing inner loop is exactly a missing name on a non-empty
instance list. -/
theorem instanceRows_error_of_no_name (r : TResource) (ty : String)
    (i : TInstance) (insts : List TInstance) (hn : r.name = none) :
    instanceRows r ty (i :: insts) = Except.error () := by
  simp only [instanceRows, hn]

/-- An ineligible resource contributes nothing, silently. -/
theorem processResource_not_eligible (e o : Bool) (r : TResource)
    (hel : eligible r = false) :
    processResource e o r = Except.ok ([], 0) := by
  simp only [processResource, hel, Bool.false_eq_true, if_false]

/-- An eligible resource without a type field makes the extraction raise. -/
theorem processResource_error_no_type (e o : Bool) (r : TResource)
    (hel : eligible r = true) (hty : r.type = none) :
    processResource e o r = Except.error () := by
  simp only [processResource, hel, if_true, hty]

/-- With both flags off, an eligible resource without a name field but
with at least one instance makes the extraction raise. -/
theorem processResource_error_no_name (r : TResource)
    (hel : eligible r = true) (hn : r.name = none)
    (hne : r.instances ≠ []) :
    processResource false false r = Except.error () := by
  cases hty : r.type with
  | none => exact processResource_error_no_type false false r hel hty
  | some ty =>
    simp only [processResource, hel, if_true, hty, Bool.false_and,
      Bool.false_eq_true, if_false]
    cases hi : r.instances with
    | nil => exact absurd hi hne
    | cons i insts =>
      rw [instanceRows_error_of_no_name r ty i insts hn]

/-- The per-resource hashi contribution: zero under the exclude flag,
otherwise the eligible-and-hashi instance count. -/
theorem processResource_ok_hashi (e o : Bool) (r : TResource)
    (rows : List Row) (hc : Nat)
    (hok : processResource e o r = Except.ok (rows, hc)) :
    hc = if e then 0
         else if eligible r && is_hashi_type r.type then r.instances.length
         else 0 := by
  by_cases hel : eligible r = true
  · cases hty : r.type with
    | none =>
      rw [processResource_error_no_type e o r hel hty] at hok
      cases hok
    | some ty =>
      simp only [processResource, hel, if_true, hty] at hok
      simp only [hel, hty, is_hashi_type, Bool.true_and]
      cases hh : is_hashi_resource ty with
      | true =>
        cases e with
        | true =>
          simp only [hh, Bool.and_true, if_true] at hok
          cases hok
          simp
        | false =>
          simp only [hh, Bool.and_true, Bool.false_eq_true, if_false,
            Bool.not_true, Bool.and_false] at hok
          cases hir : instanceRows r ty r.instances with
          | error er => rw [hir] at hok; cases hok
          | ok rest =>
            rw [hir] at hok
            simp only [hh, if_true] at hok
            cases hok
            simp
      | false =>
        simp only [hh, Bool.and_false, Bool.false_eq_true, if_false,
          Bool.not_false, Bool.and_true] at hok
        cases o with
        | true =>
          simp only [if_true] at hok
          cases hok
          simp
        | false =>
          simp only [Bool.false_eq_true, if_false] at hok
          cases hir : instanceRows r ty r.instances with
          | error er => rw [hir] at hok; cases hok
          | ok rest =>
            rw [hir] at hok
            simp only [hh, Bool.false_eq_true, if_false] at hok
            cases hok
            simp
  · have hel' : eligible r = false := by
      cases h : eligible r
      · rfl
      · exact absurd h hel
    rw [processResource_not_eligible e o r hel'] at hok
    cases hok
    simp [hel']

end Extractor

namespace Extractor

/-- The accumulated hashi counter over a resource list. -/
theorem extractList_ok_hashi (e o : Bool) :
    ∀ (rs : List TResource) (rows : List Row) (hc : Nat),
      extractList e o rs = Except.ok (rows, hc) →
      hc = if e then 0
           else ((rs.filter (fun r => eligible r && is_hashi_type r.type)).map
                  (fun r => r.instances.length)).sum := by
  intro rs
  induction rs with
  | nil =>
    intro rows hc h
    simp only [extractList] at h
    cases h
    cases e <;> simp
  | cons r rs ih =>
    intro rows hc h
    simp only [extractList] at h
    cases hp : processResource e o r with
    | error er => rw [hp] at h; cases h
    | ok p =>
      rw [hp] at h
      obtain ⟨rows1, h1⟩ := p
      cases hrec : extractList e o rs with
      | error er => rw [hrec] at h; cases h
      | ok q =>
        rw [hrec] at h
        obtain ⟨rows2, h2⟩ := q
        cases h
        have e1 := processResource_ok_hashi e o r rows1 h1 hp
        have e2 := ih rows2 h2 hrec
        cases e <;>
          simp only [if_true, Bool.false_eq_true, if_false] at e1 e2 ⊢
        · by_cases hq : (eligible r && is_hashi_type r.type) = true <;>
            simp [List.filter_cons, hq, e1, e2]
        · omega

/-- With both flags set every eligible resource is skipped: a successful
extraction returns no rows and a zero hashi counter. -/
theorem extractList_both_flags :
    ∀ (rs : List TResource) (rows : List Row) (hc : Nat),
      extractList true true rs = Except.ok (rows, hc) →
      rows = [] ∧ hc = 0 := by
  intro rs
  induction rs with
  | nil =>
    intro rows hc h
    simp only [extractList] at h
    cases h
    exact ⟨rfl, rfl⟩
  | cons r rs ih =>
    intro rows hc h
    simp only [extractList] at h
    cases hp : processResource true true r with
    | error er => rw [hp] at h; cases h
    | ok p =>
      rw [hp] at h
      obtain ⟨rows1, h1⟩ := p
      cases hrec : extractList true true rs with
      | error er => rw [hrec] at h; cases h
      | ok q =>
        rw [hrec] at h
        obtain ⟨rows2, h2⟩ := q
        cases h
        obtain ⟨hr2, hh2⟩ := ih rows2 h2 hrec
        have hr1 : rows1 = [] ∧ h1 = 0 := by
          by_cases hel : eligible r = true
          · cases hty : r.type with
            | none =>
              rw [processResource_error_no_type true true r hel hty] at hp
              cases hp
            | some ty =>
              simp only [processResource, hel, if_true, hty] at hp
              cases hh : is_hashi_resource ty with
              | true =>
                simp only [hh, Bool.and_true, if_true] at hp
                cases hp
                exact ⟨rfl, rfl⟩
              | false =>
                simp only [hh, Bool.and_false, Bool.false_eq_true, if_false,
                  Bool.not_false, Bool.and_true, if_true] at hp
                cases hp
                exact ⟨rfl, rfl⟩
          · have hel' : eligible r = false := by
              cases hx : eligible r
              · rfl
              · exact absurd hx hel
            rw [processResource_not_eligible true true r hel'] at hp
            cases hp
            exact ⟨rfl, rfl⟩
        simp [hr1.1, hr1.2, hr2, hh2]

/-- The rows of a successful unfiltered extraction: one row per instance
of each eligible resource, in document order. -/
theorem extractList_ok_rows :
    ∀ (rs : List TResource) (rows : List Row) (hc : Nat),
      extractList false false rs = Except.ok (rows, hc) →
      rows = (rs.filter eligible).flatMap
        (fun r => r.instances.map
          (fun _ => rowOf r (r.type.getD "") (r.name.getD ""))) := by
  intro rs
  induction rs with
  | nil =>
    intro rows hc h
    simp only [extractList] at h
    cases h
    rfl
  | cons r rs ih =>
    intro rows hc h
    simp only [extractList] at h
    cases hp : processResource false false r with
    | error er => rw [hp] at h; cases h
    | ok p =>
      rw [hp] at h
      obtain ⟨rows1, h1⟩ := p
      cases hrec : extractList false false rs with
      | error er => rw [hrec] at h; cases h
      | ok q =>
        rw [hrec] at h
        obtain ⟨rows2, h2⟩ := q
        cases h
        have hr2 := ih rows2 h2 hrec
        by_cases hel : eligible r = true
        · cases hty : r.type with
          | none =>
            rw [processResource_error_no_type false false r hel hty] at hp
            cases hp
          | some ty =>
            simp only [processResource, hel, if_true, hty, Bool.false_and,
              Bool.false_eq_true, if_false] at hp
            cases hir : instanceRows r ty r.instances with
            | error er => rw [hir] at hp; cases hp
            | ok rest =>
              rw [hir] at hp
              cases hp
              have hrows1 := instanceRows_ok r ty r.instances rows1 hir
              simp [List.filter_cons, hel, hrows1, hr2, hty]
        · have hel' : eligible r = false := by
            cases hx : eligible r
            · rfl
            · exact absurd hx hel
          rw [processResource_not_eligible false false r hel'] at hp
          cases hp
          simp [List.filter_cons, hel', hr2]

/-- Every row a successful extraction produces carries instance count one. -/
theorem extractList_count_one (e o : Bool) :
    ∀ (rs : List TResource) (rows : List Row) (hc : Nat),
      extractList e o rs = Except.ok (rows, hc) →
      ∀ row ∈ rows, row.instance_count = 1 := by
  intro rs
  induction rs with
  | nil =>
    intro rows hc h
    simp only [extractList] at h
    cases h
    intro row hrow
    exact absurd hrow (List.not_mem_nil _)
  | cons r rs ih =>
    intro rows hc h
    simp only [extractList] at h
    cases hp : processResource e o r with
    | error er => rw [hp] at h; cases h
    | ok p =>
      rw [hp] at h
      obtain ⟨rows1, h1⟩ := p
      cases hrec : extractList e o rs with
      | error er => rw [hrec] at h; cases h
      | ok q =>
        rw [hrec] at h
        obtain ⟨rows2, h2⟩ := q
        cases h
        intro row hrow
        rcases List.mem_append.mp hrow with hrow | hrow
        · -- from the head resource
          by_cases hel : eligible r = true
          · cases hty : r.type with
            | none =>
              rw [processResource_error_no_type e o r hel hty] at hp
              cases hp
            | some ty =>
              simp only [processResource, hel, if_true, hty] at hp
              by_cases hb1 : (e && is_hashi_resource ty) = true
              · rw [if_pos hb1] at hp
                cases hp
                exact absurd hrow (List.not_mem_nil _)
              · rw [if_neg hb1] at hp
                by_cases hb2 : (o && !(is_hashi_resource ty)) = true
                · rw [if_pos hb2] at hp
                  cases hp
                  exact absurd hrow (List.not_mem_nil _)
                · rw [if_neg hb2] at hp
                  cases hir : instanceRows r ty r.instances with
                  | error er => rw [hir] at hp; cases hp
                  | ok rest =>
                    rw [hir] at hp
                    cases hp
                    rw [instanceRows_ok r ty r.instances rows1 hir] at hrow
                    rcases List.mem_map.mp hrow with ⟨i, _, hi⟩
                    rw [← hi]
                    rfl
          · have hel' : eligible r = false := by
              cases hx : eligible r
              · rfl
              · exact absurd hx hel
            rw [processResource_not_eligible e o r hel'] at hp
            cases hp
            exact absurd hrow (List.not_mem_nil _)
        · exact ih rows2 h2 hrec row hrow

end Extractor

namespace Extractor

/-- Row count of a successful exclude-hashi extraction: together with the
skipped hashi instances it accounts for every eligible instance. -/
theorem extractList_exclude_length :
    ∀ (rs : List TResource) (rows : List Row) (hc : Nat),
      extractList true false rs = Except.ok (rows, hc) →
      rows.length
          + ((rs.filter (fun r => eligible r && is_hashi_type r.type)).map
              (fun r => r.instances.length)).sum
        = ((rs.filter eligible).map (fun r => r.instances.length)).sum := by
  intro rs
  induction rs with
  | nil =>
    intro rows hc h
    simp only [extractList] at h
    cases h
    rfl
  | cons r rs ih =>
    intro rows hc h
    simp only [extractList] at h
    cases hp : processResource true false r with
    | error er => rw [hp] at h; cases h
    | ok p =>
      rw [hp] at h
      obtain ⟨rows1, h1⟩ := p
      cases hrec : extractList true false rs with
      | error er => rw [hrec] at h; cases h
      | ok q =>
        rw [hrec] at h
        obtain ⟨rows2, h2⟩ := q
        cases h
        have hrest := ih rows2 h2 hrec
        by_cases hel : eligible r = true
        · cases hty : r.type with
          | none =>
            rw [processResource_error_no_type true false r hel hty] at hp
            cases hp
          | some ty =>
            simp only [processResource, hel, if_true, hty] at hp
            cases hh : is_hashi_resource ty with
            | true =>
              simp only [hh, Bool.and_true, if_true] at hp
              cases hp
              simp only [List.filter_cons, hel, hh, hty, is_hashi_type,
                Bool.true_and, if_true, List.map_cons, List.sum_cons,
                List.nil_append, List.length_append] at hrest ⊢
              omega
            | false =>
              simp only [hh, Bool.and_false, Bool.false_eq_true, if_false,
                Bool.not_false, Bool.and_true] at hp
              cases hir : instanceRows r ty r.instances with
              | error er => rw [hir] at hp; cases hp
              | ok rest =>
                rw [hir] at hp
                cases hp
                have hlen : rows1.length = r.instances.length := by
                  rw [instanceRows_ok r ty r.instances rows1 hir]
                  exact List.length_map _ _
                simp only [List.filter_cons, hel, hh, hty, is_hashi_type,
                  Bool.true_and, Bool.false_eq_true, if_false, if_true,
                  List.map_cons, List.sum_cons, List.length_append] at hrest ⊢
                omega
        · have hel' : eligible r = false := by
            cases hx : eligible r
            · rfl
            · exact absurd hx hel
          rw [processResource_not_eligible true false r hel'] at hp
          cases hp
          simp only [List.filter_cons, hel', Bool.false_and,
            Bool.false_eq_true, if_false, List.nil_append, List.length_append,
            List.length_nil] at hrest ⊢
          omega

/-- A raising resource makes the whole loop raise, wherever it sits. -/
theorem extractList_error_of_mem (e o : Bool) :
    ∀ (rs : List TResource) (r : TResource), r ∈ rs →
      processResource e o r = Except.error () →
      extractList e o rs = Except.error () := by
  intro rs
  induction rs with
  | nil => intro r hr; exact absurd hr (List.not_mem_nil _)
  | cons a rs ih =>
    intro r hr herr
    rcases List.mem_cons.mp hr with rfl | hr
    · simp only [extractList, herr]
    · simp only [extractList]
      cases hp : processResource e o a with
      | error er => rfl
      | ok p =>
        obtain ⟨rows1, h1⟩ := p
        rw [ih r hr herr]

/-- Resources that are not managed are invisible to the extractor: keeping
only the managed ones changes nothing, whatever the flags. -/
theorem extractList_filter_managed (e o : Bool) :
    ∀ (rs : List TResource),
      extractList e o (rs.filter (fun r => decide (r.mode = some "managed")))
        = extractList e o rs := by
  intro rs
  induction rs with
  | nil => rfl
  | cons r rs ih =>
    by_cases hm : r.mode = some "managed"
    · have hd : decide (r.mode = some "managed") = true := by simp [hm]
      simp only [List.filter_cons, hd, if_true]
      simp only [extractList, ih]
    · have hel : eligible r = false := by
        simp [eligible, hm]
      have hd : decide (r.mode = some "managed") = false := by
        simp [hm]
      simp only [List.filter_cons, hd, Bool.false_eq_true, if_false, ih]
      rw [show extractList e o (r :: rs)
            = match processResource e o r with
              | Except.error er => Except.error er
              | Except.ok (rows, h) =>
                match extractList e o rs with
                | Except.error er => Except.error er
                | Except.ok (rows2, h2) => Except.ok (rows ++ rows2, h + h2)
          from rfl]
      rw [processResource_not_eligible e o r hel]
      cases hrec : extractList e o rs with
      | error er => rfl
      | ok q =>
        obtain ⟨rows2, h2⟩ := q
        simp

end Extractor

namespace TempResources

/-- The "Unknown" sentinel contains no default keyword. -/
theorem unknown_matches_no_keyword :
    keywords.any (fun k => strContains (strLower "Unknown") k) = false := rfl

/-- An instance without a "name" attribute is never selected, whatever the
resource looks like: the sentinel replaces the name and matches nothing. -/
theorem processInstance_no_name (d : Bool) (ty : Option String)
    (inst : TInstance) (h : inst.attributes.lookup "name" = none) :
    processInstance d ty inst = Except.ok [] := by
  unfold processInstance
  rw [h]
  rfl

/-- A selected instance of a resource without a type field is reported
with the silently substituted "Unknown" resource type. -/
theorem processInstance_default_type (d : Bool) (inst : TInstance)
    (nm : String)
    (hn : inst.attributes.lookup "name" = some (JValue.str nm))
    (hk : keywords.any (fun k => strContains (strLower nm) k) = true) :
    processInstance d none inst =
      Except.ok
        [{ resource_type := "Unknown"
         , resource_name := nm
         , attributes := if d then some inst.attributes else none }] := by
  unfold processInstance
  rw [hn]
  simp only [hk, if_true, Option.getD_none]

/-- The resource loop never reads the logical name field. -/
theorem resourceLoop_rename (d : Bool) (f : TResource → Option String) :
    ∀ (rs : List TResource),
      resourceLoop d (rs.map (fun r => { r with name := f r }))
        = resourceLoop d rs := by
  intro rs
  induction rs with
  | nil => rfl
  | cons r rs ih =>
    simp only [List.map_cons, resourceLoop, ih]

/-- Rewriting every resource's logical name field leaves the keyword
extraction's result unchanged. -/
theorem extract_resources_rename (state : TState) (d : Bool)
    (f : TResource → Option String) :
    extract_resources (renameResources f state) d
      = extract_resources state d := by
  unfold extract_resources renameResources
  simp only [Option.getD_some]
  rw [resourceLoop_rename]

end TempResources

/-- C1 counterexample: a document with a single managed tfe_ resource
carrying one instance.  Without flags the extractor reports hashi count 1;
with the exclude-hashi flag the resource is skipped before being counted
and the reported hashi count is 0, while the eligible hashi population is
still 1 — so the counter is not computed over the pre-exclusion
population and differs with the flag, contrary to the claim. -/
theorem C1_hashi_count_counterexample :
    Extractor.extract_resources
        ⟨some [⟨some "managed", some "tfe_workspace", some "ws", none, none,
          [⟨[]⟩]⟩]⟩ false false
      = Except.ok ([⟨"root", "tfe_workspace", "ws", "unknown", 1⟩], 1) ∧
    Extractor.extract_resources
        ⟨some [⟨some "managed", some "tfe_workspace", some "ws", none, none,
          [⟨[]⟩]⟩]⟩ true false
      = Except.ok ([], 0) ∧
    Extractor.hashi_instance_total
        ⟨some [⟨some "managed", some "tfe_workspace", some "ws", none, none,
          [⟨[]⟩]⟩]⟩ = 1 :=
  ⟨rfl, rfl, rfl⟩

/-- C1 amended: hashi_count reflects the eligible hashi instances only
when exclusion is off (with or without the only-hashi flag); when the
exclude-hashi flag is set the hashi resources are skipped before the
counter is updated and hashi_count is 0. -/
theorem C1_hashi_count_amended (state : TState) (e o : Bool)
    (rows : List Extractor.Row) (hc : Nat)
    (hok : Extractor.extract_resources state e o = Except.ok (rows, hc)) :
    hc = if e then 0 else Extractor.hashi_instance_total state := by
  have h := Extractor.extractList_ok_hashi e o (state.resources.getD [])
    rows hc hok
  cases e
  · simpa [Extractor.hashi_instance_total] using h
  · simpa using h

/-- C1 amended, witness at the counterexample document. -/
theorem C1_hashi_count_amended_witness :
    (1 : Nat)
      = (if false then 0
         else Extractor.hashi_instance_total
           ⟨some [⟨some "managed", some "tfe_workspace", some "ws", none, none,
             [⟨[]⟩]⟩]⟩) :=
  C1_hashi_count_amended
    ⟨some [⟨some "managed", some "tfe_workspace", some "ws", none, none,
      [⟨[]⟩]⟩]⟩ false false
    [⟨"root", "tfe_workspace", "ws", "unknown", 1⟩] 1 rfl

/-- C2 counterexample: one managed tfe_ resource and one managed aws
resource, one instance each.  With both flags the extractor returns the
empty row list, while exclusion alone returns the aws row — so exclusion
does not take precedence; the two filters compose and drop everything. -/
theorem C2_both_flags_counterexample :
    Extractor.extract_resources
        ⟨some [⟨some "managed", some "tfe_workspace", some "ws", none, none,
           [⟨[]⟩]⟩,
         ⟨some "managed", some "aws_instance", some "web", none, none,
           [⟨[]⟩]⟩]⟩ true true
      = Except.ok ([], 0) ∧
    Extractor.extract_resources
        ⟨some [⟨some "managed", some "tfe_workspace", some "ws", none, none,
           [⟨[]⟩]⟩,
         ⟨some "managed", some "aws_instance", some "web", none, none,
           [⟨[]⟩]⟩]⟩ true false
      = Except.ok ([⟨"root", "aws_instance", "web", "unknown", 1⟩], 0) ∧
    ((Except.ok (([] : List Extractor.Row), (0 : Nat))
        : Except Unit (List Extractor.Row × Nat))
      ≠ Except.ok
          ([(⟨"root", "aws_instance", "web", "unknown", 1⟩ : Extractor.Row)],
            (0 : Nat))) :=
  ⟨rfl, rfl, by simp⟩

/-- C2 amended: when both flags are supplied the exclude filter drops the
hashi rows and the only filter drops all remaining rows, so a successful
extraction returns the empty row sequence with hashi count 0 — not the
exclude-only result. -/
theorem C2_both_flags_amended (state : TState)
    (rows : List Extractor.Row) (hc : Nat)
    (hok : Extractor.extract_resources state true true = Except.ok (rows, hc)) :
    rows = [] ∧ hc = 0 :=
  Extractor.extractList_both_flags (state.resources.getD []) rows hc hok

/-- C2 amended, witness at the counterexample document. -/
theorem C2_both_flags_amended_witness :
    ([] : List Extractor.Row) = [] ∧ (0 : Nat) = 0 :=
  C2_both_flags_amended
    ⟨some [⟨some "managed", some "tfe_workspace", some "ws", none, none,
       [⟨[]⟩]⟩,
     ⟨some "managed", some "aws_instance", some "web", none, none,
       [⟨[]⟩]⟩]⟩ [] 0 rfl

/-- C3 counterexample: a document whose only resource has mode "data".
The keyword extraction selects its instance (attribute name "test-db"),
and the per-type extraction returns its attribute row as well — both
operations produce rows derived from a non-managed resource, contrary to
the claim. -/
theorem C3_managed_only_counterexample :
    (⟨some "data", some "aws_db", some "x", none, none,
        [⟨[("name", JValue.str "test-db")]⟩]⟩ : TResource).mode
      = some "data" ∧
    TempResources.extract_resources
        ⟨some [⟨some "data", some "aws_db", some "x", none, none,
          [⟨[("name", JValue.str "test-db")]⟩]⟩]⟩ false
      = Except.ok (some [⟨"aws_db", "test-db", none⟩]) ∧
    TypeStats.extract_resource_instances
        ⟨some [⟨some "data", some "aws_db", some "x", none, none,
          [⟨[("name", JValue.str "test-db")]⟩]⟩]⟩ "aws_db"
      = some [[("name", JValue.str "test-db")]] :=
  ⟨rfl, rfl, rfl⟩

/-- C3 amended: only the managed-resource extractor restricts itself to
managed resources — its result is unchanged when every non-managed
resource is deleted from the document, whatever the flags; the
keyword-based and per-type extractions apply no mode filter (see the
counterexample). -/
theorem C3_managed_only_amended (state : TState) (e o : Bool) :
    Extractor.extract_resources
        ⟨some ((state.resources.getD []).filter
          (fun r => decide (r.mode = some "managed")))⟩ e o
      = Extractor.extract_resources state e o := by
  unfold Extractor.extract_resources
  simp only [Option.getD_some]
  exact Extractor.extractList_filter_managed e o (state.resources.getD [])

/-- C4 counterexample: one managed tfe_ resource and one managed aws
resource, one instance each, with the exclude-hashi policy active.  The
aggregate total_instances is 1 — the length of the policy-filtered row
list — while the unfiltered eligible set counts 2 instances, so the scalar
totals do not include the excluded hashi rows, contrary to the claim. -/
theorem C4_scalar_totals_counterexample :
    Extractor.extract_resources
        ⟨some [⟨some "managed", some "tfe_workspace", some "ws", none, none,
           [⟨[]⟩]⟩,
         ⟨some "managed", some "aws_instance", some "web", none, none,
           [⟨[]⟩]⟩]⟩ true false
      = Except.ok ([⟨"root", "aws_instance", "web", "unknown", 1⟩], 0) ∧
    (Extractor.aggregate_resources
        [⟨"root", "aws_instance", "web", "unknown", 1⟩]).total_instances = 1 ∧
    Extractor.bash_count
        ⟨some [⟨some "managed", some "tfe_workspace", some "ws", none, none,
           [⟨[]⟩]⟩,
         ⟨some "managed", some "aws_instance", some "web", none, none,
           [⟨[]⟩]⟩]⟩ = 2 :=
  ⟨rfl, rfl, rfl⟩

/-- C4 amended: the frequency tables and the scalar totals are all
computed over the same policy-filtered row list the aggregator receives.
In particular, with the exclude-hashi policy active, total_instances is
the filtered row count, which falls short of the unfiltered eligible
instance total by exactly the excluded hashi instances. -/
theorem C4_scalar_totals_amended (state : TState)
    (rows : List Extractor.Row) (hc : Nat)
    (hok : Extractor.extract_resources state true false = Except.ok (rows, hc)) :
    (Extractor.aggregate_resources rows).total_instances = rows.length ∧
    (Extractor.aggregate_resources rows).type_counts
      = Extractor.value_counts (rows.map Extractor.Row.resource_type) ∧
    rows.length + Extractor.hashi_instance_total state
      = Extractor.bash_count state := by
  refine ⟨rfl, rfl, ?_⟩
  exact Extractor.extractList_exclude_length (state.resources.getD [])
    rows hc hok

/-- C4 amended, witness at the counterexample document. -/
theorem C4_scalar_totals_amended_witness :
    (Extractor.aggregate_resources
        [⟨"root", "aws_instance", "web", "unknown", 1⟩]).total_instances
      = ([(⟨"root", "aws_instance", "web", "unknown", 1⟩ : Extractor.Row)]).length ∧
    (Extractor.aggregate_resources
        [⟨"root", "aws_instance", "web", "unknown", 1⟩]).type_counts
      = Extractor.value_counts
          (([(⟨"root", "aws_instance", "web", "unknown", 1⟩ : Extractor.Row)]).map
            Extractor.Row.resource_type) ∧
    ([(⟨"root", "aws_instance", "web", "unknown", 1⟩ : Extractor.Row)]).length
        + Extractor.hashi_instance_total
            ⟨some [⟨some "managed", some "tfe_workspace", some "ws", none, none,
               [⟨[]⟩]⟩,
             ⟨some "managed", some "aws_instance", some "web", none, none,
               [⟨[]⟩]⟩]⟩
      = Extractor.bash_count
          ⟨some [⟨some "managed", some "tfe_workspace", some "ws", none, none,
             [⟨[]⟩]⟩,
           ⟨some "managed", some "aws_instance", some "web", none, none,
             [⟨[]⟩]⟩]⟩ :=
  C4_scalar_totals_amended
    ⟨some [⟨some "managed", some "tfe_workspace", some "ws", none, none,
       [⟨[]⟩]⟩,
     ⟨some "managed", some "aws_instance", some "web", none, none,
       [⟨[]⟩]⟩]⟩
    [⟨"root", "aws_instance", "web", "unknown", 1⟩] 0 rfl

/-- C5 counterexample: in the keyword-based extraction, a resource whose
type field is absent but whose instance carries a matching name attribute
is reported with the silently substituted type "Unknown" — no fatal
structural error is raised and the entry is not skipped, contrary to the
claim that a missing required field is never defaulted. -/
theorem C5_missing_field_counterexample :
    (⟨some "managed", none, some "x", none, none,
        [⟨[("name", JValue.str "temp-db")]⟩]⟩ : TResource).type = none ∧
    TempResources.extract_resources
        ⟨some [⟨some "managed", none, some "x", none, none,
          [⟨[("name", JValue.str "temp-db")]⟩]⟩]⟩ false
      = Except.ok (some [⟨"Unknown", "temp-db", none⟩]) :=
  ⟨rfl, rfl⟩

/-- C5 amended: the managed-resource extractor does raise on an eligible
resource whose type field is missing, or whose name field is missing
while it has instances, aborting the run with no partial output; the
keyword-based extractor instead substitutes "Unknown" for a missing type
and reports the entry (it never reads the resource's name field at all). -/
theorem C5_missing_field_amended :
    (∀ (state : TState) (r : TResource),
       r ∈ state.resources.getD [] →
       Extractor.eligible r = true →
       (r.type = none ∨ (r.name = none ∧ r.instances ≠ [])) →
       Extractor.extract_resources state false false = Except.error ()) ∧
    (∀ (d : Bool) (inst : TInstance) (nm : String),
       inst.attributes.lookup "name" = some (JValue.str nm) →
       TempResources.keywords.any (fun k => strContains (strLower nm) k)
         = true →
       TempResources.processInstance d none inst =
         Except.ok
           [{ resource_type := "Unknown"
            , resource_name := nm
            , attributes := if d then some inst.attributes else none }]) := by
  constructor
  · intro state r hmem hel hbad
    have herr : Extractor.processResource false false r = Except.error () := by
      rcases hbad with hty | ⟨hn, hne⟩
      · exact Extractor.processResource_error_no_type false false r hel hty
      · exact Extractor.processResource_error_no_name r hel hn hne
    exact Extractor.extractList_error_of_mem false false
      (state.resources.getD []) r hmem herr
  · intro d inst nm hn hk
    exact TempResources.processInstance_default_type d inst nm hn hk

/-- C5 amended, witness: the managed-resource extractor raises on a
document whose only resource is eligible but has no type field, and the
keyword-based extractor defaults the missing type of a matching
instance. -/
theorem C5_missing_field_amended_witness :
    Extractor.extract_resources
        ⟨some [⟨some "managed", none, some "x", none, none,
          [⟨[("name", JValue.str "temp-db")]⟩]⟩]⟩ false false
      = Except.error () ∧
    TempResources.processInstance false none ⟨[("name", JValue.str "temp-db")]⟩
      = Except.ok [{ resource_type := "Unknown"
                   , resource_name := "temp-db"
                   , attributes := none }] :=
  ⟨C5_missing_field_amended.1
      ⟨some [⟨some "managed", none, some "x", none, none,
        [⟨[("name", JValue.str "temp-db")]⟩]⟩]⟩
      ⟨some "managed", none, some "x", none, none,
        [⟨[("name", JValue.str "temp-db")]⟩]⟩
      (List.mem_singleton.mpr rfl) rfl (Or.inl rfl),
   C5_missing_field_amended.2 false ⟨[("name", JValue.str "temp-db")]⟩
      "temp-db" rfl rfl⟩

/-- C6: a successful unfiltered extraction yields exactly one row per
(eligible resource, instance) pair in document order, so the row count
equals the instance-count sum over the eligible resources (the jq
comparison figure); resources with no instances contribute nothing. -/
theorem C6_row_count_invariant (state : TState)
    (rows : List Extractor.Row) (hc : Nat)
    (hok : Extractor.extract_resources state false false
      = Except.ok (rows, hc)) :
    rows = ((state.resources.getD []).filter Extractor.eligible).flatMap
        (fun r => r.instances.map
          (fun _ => Extractor.rowOf r (r.type.getD "") (r.name.getD ""))) ∧
    rows.length = Extractor.bash_count state := by
  have h1 := Extractor.extractList_ok_rows (state.resources.getD [])
    rows hc hok
  refine ⟨h1, ?_⟩
  rw [h1]
  unfold Extractor.bash_count
  rw [List.length_flatMap]
  refine congrArg List.sum (List.map_congr_left ?_)
  intro r _
  simp [Function.comp, List.length_map]

/-- C6, witness: a document with one eligible two-instance resource and
one housekeeping resource. -/
theorem C6_row_count_invariant_witness :
    ([⟨"root", "aws_instance", "web", "unknown", 1⟩,
      ⟨"root", "aws_instance", "web", "unknown", 1⟩] : List Extractor.Row)
      = (((⟨some [⟨some "managed", some "aws_instance", some "web", none, none,
              [⟨[]⟩, ⟨[]⟩]⟩,
            ⟨some "managed", some "null_resource", some "dummy", none, none,
              [⟨[]⟩]⟩]⟩ : TState).resources.getD []).filter
            Extractor.eligible).flatMap
          (fun r => r.instances.map
            (fun _ => Extractor.rowOf r (r.type.getD "") (r.name.getD ""))) ∧
    ([⟨"root", "aws_instance", "web", "unknown", 1⟩,
      ⟨"root", "aws_instance", "web", "unknown", 1⟩] : List Extractor.Row).length
      = Extractor.bash_count
          ⟨some [⟨some "managed", some "aws_instance", some "web", none, none,
             [⟨[]⟩, ⟨[]⟩]⟩,
           ⟨some "managed", some "null_resource", some "dummy", none, none,
             [⟨[]⟩]⟩]⟩ :=
  C6_row_count_invariant
    ⟨some [⟨some "managed", some "aws_instance", some "web", none, none,
       [⟨[]⟩, ⟨[]⟩]⟩,
     ⟨some "managed", some "null_resource", some "dummy", none, none,
       [⟨[]⟩]⟩]⟩
    [⟨"root", "aws_instance", "web", "unknown", 1⟩,
     ⟨"root", "aws_instance", "web", "unknown", 1⟩] 0 rfl

/-- C7: the grouped summary rows' instance counts sum back to the length
of the row list fed into the grouper, for any extraction outcome and any
flag setting — every extractor row carries instance count 1 and grouping
partitions the rows by their key tuple. -/
theorem C7_group_sum_conservation (state : TState) (e o : Bool)
    (rows : List Extractor.Row) (hc : Nat)
    (hok : Extractor.extract_resources state e o = Except.ok (rows, hc)) :
    ((Extractor.group_resources rows).map Prod.snd).sum = rows.length := by
  have hone := Extractor.extractList_count_one e o (state.resources.getD [])
    rows hc hok
  unfold Extractor.group_resources
  simp only [List.map_map, Function.comp_def]
  rw [sum_groups Extractor.groupKey Extractor.Row.instance_count rows]
  exact sum_map_one Extractor.Row.instance_count rows hone

/-- C7, witness: a document producing two rows of the same group. -/
theorem C7_group_sum_conservation_witness :
    ((Extractor.group_resources
        [⟨"root", "aws_instance", "web", "unknown", 1⟩,
         ⟨"root", "aws_instance", "web", "unknown", 1⟩]).map Prod.snd).sum
      = ([⟨"root", "aws_instance", "web", "unknown", 1⟩,
          ⟨"root", "aws_instance", "web", "unknown", 1⟩]
            : List Extractor.Row).length :=
  C7_group_sum_conservation
    ⟨some [⟨some "managed", some "aws_instance", some "web", none, none,
      [⟨[]⟩, ⟨[]⟩]⟩]⟩ false false
    [⟨"root", "aws_instance", "web", "unknown", 1⟩,
     ⟨"root", "aws_instance", "web", "unknown", 1⟩] 0 rfl

/-- C8: for both deduplication scopes the code uses — the Resource
Type + Resource Name subset of the keyword extraction and the full
attribute row of the per-type extraction — deduplication returns a
sublist (original order), each survivor is the first input entry with its
key, every input entry is represented, and deduplicating again under the
same scope is the identity. -/
theorem C8_dedup_first_occurrence_idempotent :
    (∀ (xs : List TempResources.TempRow),
       (dropDuplicatesBy TempResources.dedup_subset_key xs).Sublist xs ∧
       (∀ y ∈ dropDuplicatesBy TempResources.dedup_subset_key xs,
         (xs.filter (fun a => decide (TempResources.dedup_subset_key a
             = TempResources.dedup_subset_key y))).head? = some y) ∧
       (∀ x ∈ xs, ∃ y ∈ dropDuplicatesBy TempResources.dedup_subset_key xs,
         TempResources.dedup_subset_key y = TempResources.dedup_subset_key x) ∧
       dropDuplicatesBy TempResources.dedup_subset_key
           (dropDuplicatesBy TempResources.dedup_subset_key xs)
         = dropDuplicatesBy TempResources.dedup_subset_key xs) ∧
    (∀ (ys : List (List (String × JValue))),
       (dropDuplicatesBy id ys).Sublist ys ∧
       (∀ y ∈ dropDuplicatesBy id ys,
         (ys.filter (fun a => decide (a = y))).head? = some y) ∧
       (∀ x ∈ ys, x ∈ dropDuplicatesBy id ys) ∧
       dropDuplicatesBy id (dropDuplicatesBy id ys)
         = dropDuplicatesBy id ys) := by
  constructor
  · intro xs
    refine ⟨dedupAux_sublist TempResources.dedup_subset_key xs [], ?_, ?_, ?_⟩
    · intro y hy
      exact dedupAux_head_filter TempResources.dedup_subset_key xs [] y hy
    · intro x hx
      rcases dedupAux_exists_rep TempResources.dedup_subset_key xs [] x hx
        (List.not_mem_nil _) with ⟨y, hy, hk⟩
      exact ⟨y, hy, hk⟩
    · exact dropDuplicatesBy_idem TempResources.dedup_subset_key xs
  · intro ys
    refine ⟨dedupAux_sublist id ys [], ?_, ?_, ?_⟩
    · intro y hy
      exact dedupAux_head_filter id ys [] y hy
    · intro x hx
      exact (mem_dedupAux_id ys [] x).mpr ⟨hx, List.not_mem_nil _⟩
    · exact dropDuplicatesBy_idem id ys

/-- C8, witness: a three-entry list whose first and third entries share
the subset key: dedup is idempotent on it and keeps the first entry. -/
theorem C8_dedup_first_occurrence_idempotent_witness :
    dropDuplicatesBy TempResources.dedup_subset_key
        (dropDuplicatesBy TempResources.dedup_subset_key
          [⟨"t", "a", none⟩, ⟨"t", "b", none⟩, ⟨"t", "a", none⟩])
      = dropDuplicatesBy TempResources.dedup_subset_key
          [⟨"t", "a", none⟩, ⟨"t", "b", none⟩, ⟨"t", "a", none⟩] ∧
    (([⟨"t", "a", none⟩, ⟨"t", "b", none⟩, ⟨"t", "a", none⟩]
          : List TempResources.TempRow).filter
        (fun a => decide (TempResources.dedup_subset_key a
          = TempResources.dedup_subset_key
              (⟨"t", "a", none⟩ : TempResources.TempRow)))).head?
      = some ⟨"t", "a", none⟩ :=
  ⟨(C8_dedup_first_occurrence_idempotent.1
      [⟨"t", "a", none⟩, ⟨"t", "b", none⟩, ⟨"t", "a", none⟩]).2.2.2,
   (C8_dedup_first_occurrence_idempotent.1
      [⟨"t", "a", none⟩, ⟨"t", "b", none⟩, ⟨"t", "a", none⟩]).2.1
     ⟨"t", "a", none⟩ (by decide)⟩

/-- C9: a document whose resources field is absent or empty extracts
successfully to the empty row list with hashi count 0, whatever the
flags, and its aggregate total_instances is 0 — an empty result, not an
error. -/
theorem C9_empty_resources (state : TState) (e o : Bool)
    (hempty : state.resources = none ∨ state.resources = some []) :
    Extractor.extract_resources state e o = Except.ok ([], 0) ∧
    (Extractor.aggregate_resources []).total_instances = 0 := by
  constructor
  · rcases hempty with h | h <;>
      simp [Extractor.extract_resources, h, Extractor.extractList]
  · rfl

/-- C9, witness at the document with no resources field. -/
theorem C9_empty_resources_witness :
    Extractor.extract_resources ⟨none⟩ true false = Except.ok ([], 0) ∧
    (Extractor.aggregate_resources []).total_instances = 0 :=
  C9_empty_resources ⟨none⟩ true false (Or.inl rfl)

/-- C10: the keyword predicate of the temporary-resource extraction is
evaluated on the instance's "name" attribute: an instance without that
attribute is never selected (the substituted "Unknown" sentinel matches
no default keyword), and rewriting every resource's logical name field
leaves the whole extraction unchanged. -/
theorem C10_keyword_uses_attribute_name :
    (∀ (d : Bool) (ty : Option String) (inst : TInstance),
       inst.attributes.lookup "name" = none →
       TempResources.processInstance d ty inst = Except.ok []) ∧
    TempResources.keywords.any
        (fun k => strContains (strLower "Unknown") k) = false ∧
    (∀ (state : TState) (d : Bool) (f : TResource → Option String),
       TempResources.extract_resources (TempResources.renameResources f state) d
         = TempResources.extract_resources state d) := by
  refine ⟨?_, TempResources.unknown_matches_no_keyword, ?_⟩
  · intro d ty inst h
    exact TempResources.processInstance_no_name d ty inst h
  · intro state d f
    exact TempResources.extract_resources_rename state d f

/-- C10, witness: an instance with attributes but no "name" attribute is
not selected even on a resource whose logical name contains a keyword. -/
theorem C10_keyword_uses_attribute_name_witness :
    TempResources.processInstance false (some "aws_instance")
        ⟨[("id", JValue.num 5)]⟩ = Except.ok [] :=
  C10_keyword_uses_attribute_name.1 false (some "aws_instance")
    ⟨[("id", JValue.num 5)]⟩ rfl
